import Mathlib

/-!
Verification of `scripts/update_publications.py`: a shallow embedding of the
fetch-parse-render-splice pipeline, with strings modelled as `List Char`,
the external paginated listing modelled as a function from offset to parsed
rows, and the crawl loop given explicit fuel.
-/

set_option maxRecDepth 10000

namespace UpdatePub

abbrev Str := List Char

/-- Configuration constant `START_YEAR = 2018`. -/
def START_YEAR : Nat := 2018

/-- Marker literal `MARKER_START`. -/
def MARKER_START : Str := ("<!-- AUTO-GENERATED PUBLICATIONS START -->").data

/-- Marker literal `MARKER_END`. -/
def MARKER_END : Str := ("<!-- AUTO-GENERATED PUBLICATIONS END -->").data

/-- Fallback anchor literal used by `inject_html`. -/
def ANCHOR : Str := ("  <div class=\"bigtitle\">2017</div>").data

/-- Host prepended to the scraped relative href. -/
def SCHOLAR_HOST : Str := ("https://scholar.google.com").data

/-- Index of the first occurrence of `p` in a string, as Python `str.index`
(`none` when `p` does not occur, as tested by Python `in`). -/
def firstIdx (p : Str) : Str → Option Nat
  | [] => if p = [] then some 0 else none
  | c :: s => if p.isPrefixOf (c :: s) then some 0 else (firstIdx p s).map (· + 1)

/-- Python substring test `p in s`. -/
def containsS (p s : Str) : Bool := (firstIdx p s).isSome

/-- Embedding of `inject_html(existing, new_block)`; `Except.error` models the
`SystemExit` raised when neither the marker pair nor the anchor is found. -/
def inject_html (existing new_block : Str) : Except Str Str :=
  if containsS MARKER_START existing && containsS MARKER_END existing then
    let start := (firstIdx MARKER_START existing).getD 0
    let endIdx := (firstIdx MARKER_END existing).getD 0 + MARKER_END.length
    .ok (existing.take start ++ new_block ++ existing.drop endIdx)
  else if containsS ANCHOR existing then
    let idx := (firstIdx ANCHOR existing).getD 0
    .ok (existing.take idx ++ new_block ++ (Char.ofNat 10 :: existing.drop idx))
  else .error (("Could not find insertion anchor in papers/index.html").data)

/-- The `Publication` dataclass. -/
structure Publication where
  year : Nat
  title : Str
  link : Str
  venue : Str
deriving DecidableEq

/-- One `tr.gsc_a_tr` row as seen by `parse_rows`: the optional text of
`td.gsc_a_y span`, the optional `a.gsc_a_at` tag (its text and optional
`href` attribute), and the texts of the `div.gs_gray` detail lines. -/
structure RowTag where
  year_span : Option Str
  link_tag : Option (Str × Option Str)
  gs_gray : List Str
deriving DecidableEq

/-- ASCII whitespace stripped by Python `str.strip()`. -/
def isPySpace (c : Char) : Bool :=
  c = ' ' || c = Char.ofNat 9 || c = Char.ofNat 10 || c = Char.ofNat 13 ||
  c = Char.ofNat 11 || c = Char.ofNat 12

/-- Python `str.strip()`. -/
def pyStrip (s : Str) : Str :=
  ((s.dropWhile isPySpace).reverse.dropWhile isPySpace).reverse

/-- Python `str.isdigit()` (restricted to ASCII digits). -/
def isDigits (s : Str) : Bool := !s.isEmpty && s.all (fun c => c.isDigit)

/-- Python `int` on a string of ASCII digits. -/
def digitsToNat (s : Str) : Nat := s.foldl (fun n c => n * 10 + (c.toNat - 48)) 0

/-- Embedding of `parse_rows`: the `break` on a below-cutoff year returns the
accumulated records and discards the rest of the page. -/
def parse_rows : List RowTag → List Publication
  | [] => []
  | row :: rest =>
    match row.year_span with
    | none => parse_rows rest
    | some ys =>
      if isDigits (pyStrip ys) then
        if digitsToNat (pyStrip ys) < START_YEAR then []
        else
          match row.link_tag with
          | none => parse_rows rest
          | some (txt, href) =>
            { year := digitsToNat (pyStrip ys)
              title := pyStrip txt
              link := SCHOLAR_HOST ++ href.getD []
              venue := match row.gs_gray with
                | _ :: d2 :: _ => pyStrip d2
                | _ => [] } :: parse_rows rest
      else parse_rows rest

/-- Loop body of `fetch_publications`, with explicit fuel; the second
component of the result counts how many pages were fetched. -/
def fetch_pubs_go (pages : Nat → List RowTag) :
    Nat → Nat → List Publication → Nat → Option (List Publication × Nat)
  | 0, _, _, _ => none
  | fuel + 1, cstart, acc, fetched =>
    match parse_rows (pages cstart) with
    | [] => some (acc, fetched + 1)
    | p :: ps =>
      let acc2 := acc ++ (p :: ps)
      if ((p :: ps).getLast (List.cons_ne_nil p ps)).year < START_YEAR then
        some (acc2, fetched + 1)
      else fetch_pubs_go pages fuel (cstart + 20) acc2 (fetched + 1)

/-- Embedding of `fetch_publications`, over an abstract listing `pages`
(mapping a `cstart` offset to that page's rows) and explicit fuel. -/
def fetch_publications (pages : Nat → List RowTag) (fuel : Nat) :
    Option (List Publication × Nat) :=
  fetch_pubs_go pages fuel 0 [] 0

/-- Iteration of `chunk`: one slice `items[i:i+size]` per index produced by
`range(0, len(items), size)`. -/
def chunkIdx (items : List Publication) (size : Nat) : Nat → Nat → List (List Publication)
  | 0, _ => []
  | k + 1, i => ((items.drop i).take size) :: chunkIdx items size k (i + size)

/-- Embedding of `chunk(items, size)` (the generator, materialised). -/
def chunk (items : List Publication) (size : Nat) : List (List Publication) :=
  chunkIdx items size ((items.length + size - 1) / size) 0

/-- Python `html.escape` (with its default `quote=True`) on one character. -/
def htmlEscapeChar (c : Char) : Str :=
  if c = '&' then ("&amp;").data
  else if c = '<' then ("&lt;").data
  else if c = '>' then ("&gt;").data
  else if c = '"' then ("&quot;").data
  else if c = Char.ofNat 39 then ("&#x27;").data
  else [c]

/-- Python `html.escape` with the default `quote=True`. -/
def html_escape (s : Str) : Str := s.flatMap htmlEscapeChar

/-- Insertion into `by_year` as done by `by_year.setdefault(year, []).append(pub)`
on an insertion-ordered dict. -/
def addYear : List (Nat × List Publication) → Publication → List (Nat × List Publication)
  | [], p => [(p.year, [p])]
  | (y, ps) :: rest, p =>
    if y = p.year then (y, ps ++ [p]) :: rest else (y, ps) :: addYear rest p

/-- The `by_year` dict built by `build_html`, keys in first-encounter order. -/
def groupByYear (pubs : List Publication) : List (Nat × List Publication) :=
  pubs.foldl addYear []

/-- Descending insertion used to model `sorted(by_year.keys(), reverse=True)`. -/
def insertDesc (y : Nat) : List Nat → List Nat
  | [] => [y]
  | x :: xs => if x ≤ y then y :: x :: xs else x :: insertDesc y xs

/-- Model of `sorted(keys, reverse=True)` (keys are distinct). -/
def sortDesc (l : List Nat) : List Nat := l.foldr insertDesc []

/-- Dict access `by_year[year]`. -/
def lookupYear (l : List (Nat × List Publication)) (y : Nat) : List Publication :=
  match l.find? (fun e => e.fst == y) with
  | some e => e.snd
  | none => []

/-- The one publication card appended to `parts` for each `pub`. -/
def renderCard (pub : Publication) : Str :=
  ("      <div class=\"col-md-4 paperbox\">\n        <div class=\"media\">\n          <div class=\"media-body\">\n            <div class=\"smallhead media-heading\">\n              <a href=\"").data
  ++ html_escape pub.link
  ++ ("\" class=\"off\">").data
  ++ html_escape pub.title
  ++ ("</a>\n            </div>\n            <p class=\"note\"><i>").data
  ++ html_escape pub.venue
  ++ ("</i></p>\n          </div>\n        </div>\n      <div class=\"bigspacer\"></div><div class=\"spacer\"></div>\n      </div>").data

/-- The list of `parts` entries contributed by one year group. -/
def renderYear (year : Nat) (pubs : List Publication) : List Str :=
  [("  <div class=\"bigtitle\">").data ++ (Nat.repr year).data ++ ("</div>").data,
   ("  <div class=\"spacer\"></div>").data]
  ++ (chunk pubs 3).flatMap (fun group =>
      ("  <div class=\"row\">").data :: group.map renderCard ++ [("  </div>").data, []])

/-- Python `"\n".join(parts)`. -/
def joinNL : List Str → Str
  | [] => []
  | [x] => x
  | x :: y :: xs => x ++ Char.ofNat 10 :: joinNL (y :: xs)

/-- Embedding of `build_html(pubs)`. -/
def build_html (pubs : List Publication) : Str :=
  let by_year := groupByYear pubs
  joinNL (MARKER_START ::
    ((sortDesc (by_year.map Prod.fst)).flatMap (fun y => renderYear y (lookupYear by_year y))
      ++ [MARKER_END, []]))

/-- How a run of `main` ends: a returned exit code, or a propagated
`SystemExit` carrying a message. -/
inductive MainResult where
  | ret (code : Nat)
  | sysExit (msg : Str)
deriving DecidableEq

/-- File operations `main` may perform on `papers/index.html`. -/
inductive FileOp where
  | read
  | write
deriving DecidableEq

/-- Observable outcome of a `main` run: how it ended, the final content of the
document file, and the file operations performed, in order. -/
structure RunOutcome where
  result : MainResult
  finalDoc : Str
  ops : List FileOp
deriving DecidableEq

/-- Embedding of `main()`, over the abstract listing, fuel for the crawl, and
the current content of `papers/index.html`; `none` means the crawl ran out of
fuel (the Python loop did not terminate within it). -/
def main (pages : Nat → List RowTag) (fuel : Nat) (doc : Str) : Option RunOutcome :=
  match fetch_publications pages fuel with
  | none => none
  | some (pubs, _) =>
    if pubs.isEmpty then some ⟨.ret 1, doc, []⟩
    else
      match inject_html doc (build_html pubs) with
      | .error msg => some ⟨.sysExit msg, doc, [.read]⟩
      | .ok updated => some ⟨.ret 0, updated, [.read, .write]⟩

/-- A pattern `p` is free of self-overlap: no nonempty proper prefix of `p` is
also a suffix of `p` (equivalently, `p` has no nonempty border). -/
def selfOverlapFree (p : Str) : Prop :=
  ∀ k, k < p.length → 0 < k → p.drop k ≠ p.take (p.length - k)

/-- Rows from this one on are discarded by `parse_rows`: the row has a numeric
year below `START_YEAR`, triggering the `break`. -/
def belowCut (r : RowTag) : Bool :=
  match r.year_span with
  | some ys => isDigits (pyStrip ys) && digitsToNat (pyStrip ys) < START_YEAR
  | none => false

/-- A 2022 row with title link and a venue detail line. -/
def row2022 : RowTag :=
  ⟨some (("2022").data), some (("Paper A").data, some (("/a").data)),
   [("authors").data, ("Venue A").data]⟩

/-- A 2019 row with title link. -/
def row2019 : RowTag := ⟨some (("2019").data), some (("Paper B").data, some (("/b").data)), []⟩

/-- A 2018 row with title link. -/
def row2018 : RowTag := ⟨some (("2018").data), some (("Paper C").data, some (("/c").data)), []⟩

/-- A 2017 row (below the cutoff) with title link. -/
def row2017 : RowTag := ⟨some (("2017").data), some (("Paper D").data, some (("/d").data)), []⟩

/-- A row whose title link is present but has whitespace-only text. -/
def rowBlank : RowTag := ⟨some (("2020").data), some ((" ").data, some (("/p").data)), []⟩

/-- Record parsed from `row2022`. -/
def pub2022 : Publication := ⟨2022, ("Paper A").data, SCHOLAR_HOST ++ ("/a").data, ("Venue A").data⟩

/-- Record parsed from `row2019`. -/
def pub2019 : Publication := ⟨2019, ("Paper B").data, SCHOLAR_HOST ++ ("/b").data, []⟩

/-- Record parsed from `row2018`. -/
def pub2018 : Publication := ⟨2018, ("Paper C").data, SCHOLAR_HOST ++ ("/c").data, []⟩

/-- A listing whose successive pages have last-row years 2022, 2019 and 2017
(the third page straddles the cutoff), with nothing after the third page. -/
def pagesC3 : Nat → List RowTag := fun c =>
  if c = 0 then [row2022]
  else if c = 20 then [row2019]
  else if c = 40 then [row2018, row2017]
  else []

/-- The empty listing: every page is empty. -/
def pagesNone : Nat → List RowTag := fun _ => []

/-- A marker-delimited document used for the idempotence check. -/
def docC1 : Str := ("X").data ++ MARKER_START ++ ("old").data ++ MARKER_END ++ ("Y").data

/-- Document `docC1` after one splice of `build_html []`. -/
def docC1a : Str := ("X").data ++ build_html [] ++ ("Y").data

/-- Document `docC1` after two splices of `build_html []`: one newline longer. -/
def docC1b : Str := ("X").data ++ build_html [] ++ ("\nY").data

/-! Helper lemmas: occurrences, `firstIdx`, and splicing. -/

theorem isPrefixOf_eq_iff {p s : Str} : p.isPrefixOf s = true ↔ p <+: s :=
  List.isPrefixOf_iff_prefix

theorem firstIdx_eq_some_iff (p : Str) : ∀ (s : Str) (i : Nat),
    firstIdx p s = some i ↔ (p <+: s.drop i ∧ ∀ j, j < i → ¬ p <+: s.drop j) := by
  intro s
  induction s with
  | nil =>
    intro i
    by_cases hp : p = []
    · subst hp
      simp only [firstIdx, if_pos rfl]
      constructor
      · intro h
        obtain rfl : i = 0 := by simpa using h.symm
        simp
      · rintro ⟨-, h2⟩
        rcases Nat.eq_zero_or_pos i with rfl | hi
        · rfl
        · exact absurd (List.nil_prefix) (h2 0 hi)
    · simp only [firstIdx, if_neg hp]
      constructor
      · intro h; exact absurd h (by simp)
      · rintro ⟨h1, -⟩
        simp only [List.drop_nil] at h1
        exact absurd (List.prefix_nil.mp h1) hp
  | cons c t ih =>
    intro i
    simp only [firstIdx]
    by_cases hpre : p.isPrefixOf (c :: t)
    · rw [if_pos hpre]
      have hp : p <+: (c :: t) := isPrefixOf_eq_iff.mp hpre
      constructor
      · intro h
        obtain rfl : i = 0 := by simpa using h.symm
        exact ⟨by simpa using hp, by omega⟩
      · rintro ⟨-, h2⟩
        rcases Nat.eq_zero_or_pos i with rfl | hi
        · rfl
        · exact absurd (by simpa using hp) (h2 0 hi)
    · rw [if_neg hpre]
      have hnp : ¬ p <+: (c :: t) := fun h => hpre (isPrefixOf_eq_iff.mpr h)
      constructor
      · intro h
        obtain ⟨i2, hi2, rfl⟩ : ∃ i2, firstIdx p t = some i2 ∧ i = i2 + 1 := by
          cases hft : firstIdx p t with
          | none => rw [hft] at h; simp at h
          | some v => rw [hft] at h; simp at h; exact ⟨v, rfl, h.symm⟩
        obtain ⟨h1, h2⟩ := (ih i2).mp hi2
        refine ⟨by simpa using h1, ?_⟩
        intro j hj
        cases j with
        | zero => simpa using hnp
        | succ j2 => simpa using h2 j2 (by omega)
      · rintro ⟨h1, h2⟩
        cases i with
        | zero => exact absurd (by simpa using h1) hnp
        | succ i2 =>
          have hs : firstIdx p t = some i2 :=
            (ih i2).mpr ⟨by simpa using h1, fun j hj => by simpa using h2 (j + 1) (by omega)⟩
          simp [hs]

theorem ifx_iff_exists_drop {p s : Str} : p <:+: s ↔ ∃ i, p <+: s.drop i := by
  constructor
  · rintro ⟨u, v, rfl⟩
    exact ⟨u.length, by rw [List.append_assoc, List.drop_left]; exact List.prefix_append p v⟩
  · rintro ⟨i, h⟩
    exact List.infix_iff_prefix_suffix.mpr ⟨s.drop i, h, List.drop_suffix i s⟩

theorem firstIdx_isSome_of_occ {p : Str} : ∀ {s : Str} {i : Nat},
    p <+: s.drop i → (firstIdx p s).isSome = true := by
  intro s
  induction s with
  | nil =>
    intro i h
    simp only [List.drop_nil] at h
    obtain rfl := List.prefix_nil.mp h
    simp [firstIdx]
  | cons c t ih =>
    intro i h
    simp only [firstIdx]
    by_cases hpre : p.isPrefixOf (c :: t)
    · simp [hpre]
    · rw [if_neg hpre]
      cases i with
      | zero =>
        exact absurd (isPrefixOf_eq_iff.mpr (by simpa using h)) hpre
      | succ i2 =>
        have := ih (i := i2) (by simpa using h)
        cases hft : firstIdx p t with
        | none => rw [hft] at this; simp at this
        | some v => simp [hft]

theorem firstIdx_eq_none_iff (p s : Str) : firstIdx p s = none ↔ ¬ p <:+: s := by
  constructor
  · intro h hocc
    obtain ⟨i, hi⟩ := ifx_iff_exists_drop.mp hocc
    have := firstIdx_isSome_of_occ hi
    rw [h] at this
    simp at this
  · intro h
    cases hft : firstIdx p s with
    | none => rfl
    | some v =>
      have := ((firstIdx_eq_some_iff p s v).mp hft).1
      exact absurd (ifx_iff_exists_drop.mpr ⟨v, this⟩) h

theorem containsS_iff {p s : Str} : containsS p s = true ↔ p <:+: s := by
  unfold containsS
  constructor
  · intro h
    cases hft : firstIdx p s with
    | none => rw [hft] at h; simp at h
    | some v =>
      exact ifx_iff_exists_drop.mpr ⟨v, ((firstIdx_eq_some_iff p s v).mp hft).1⟩
  · intro h
    obtain ⟨i, hi⟩ := ifx_iff_exists_drop.mp h
    exact firstIdx_isSome_of_occ hi

theorem pfx_append_split {l a b : Str} (h : l <+: a ++ b) (ha : a.length ≤ l.length) :
    l.take a.length = a ∧ l.drop a.length <+: b := by
  obtain ⟨t, ht⟩ := h
  constructor
  · have h2 := congrArg (List.take a.length) ht
    rwa [List.take_append_of_le_length ha, List.take_left] at h2
  · have h2 := congrArg (List.drop a.length) ht
    rw [List.drop_append_of_le_length ha, List.drop_left] at h2
    exact ⟨t, h2⟩

theorem pfx_of_append_left {l a b : Str} (h : l <+: a ++ b) (hl : l.length ≤ a.length) :
    l <+: a := by
  have h2 := List.prefix_iff_eq_take.mp h
  rw [List.take_append_of_le_length hl] at h2
  exact h2 ▸ List.take_prefix _ _

theorem sfx_of_append_right {l a b : Str} (h : l <:+ a ++ b) (hl : l.length ≤ b.length) :
    l <:+ b := by
  have h2 := List.suffix_iff_eq_drop.mp h
  have hlen : (a ++ b).length - l.length = a.length + (b.length - l.length) := by
    simp only [List.length_append]; omega
  rw [hlen, ← List.drop_drop, List.drop_left] at h2
  exact List.suffix_iff_eq_drop.mpr h2

theorem ifx_append_cases {p x y : Str} (h : p <:+: x ++ y) :
    p <:+: x ∨ p <:+: y ∨
    ∃ k, 0 < k ∧ k < p.length ∧ p.take k <:+ x ∧ p.drop k <+: y := by
  rw [ifx_iff_exists_drop] at h
  obtain ⟨i, hp⟩ := h
  by_cases hix : x.length ≤ i
  · right; left
    rw [ifx_iff_exists_drop]
    refine ⟨i - x.length, ?_⟩
    rwa [show i = x.length + (i - x.length) by omega, ← List.drop_drop, List.drop_left] at hp
  · push_neg at hix
    rw [List.drop_append_of_le_length (Nat.le_of_lt hix)] at hp
    by_cases hlen : p.length ≤ (x.drop i).length
    · left
      rw [ifx_iff_exists_drop]
      exact ⟨i, pfx_of_append_left hp hlen⟩
    · right; right
      push_neg at hlen
      have hxl : (x.drop i).length = x.length - i := List.length_drop i x
      obtain ⟨htake, hdrop2⟩ := pfx_append_split hp (Nat.le_of_lt hlen)
      refine ⟨(x.drop i).length, by omega, by omega, ?_, hdrop2⟩
      rw [htake]
      exact List.drop_suffix i x

theorem firstIdx_append_self (p X Y : Str)
    (hov : selfOverlapFree p) (hX : ¬ p <:+: X) :
    firstIdx p (X ++ (p ++ Y)) = some X.length := by
  rw [firstIdx_eq_some_iff]
  constructor
  · rw [List.drop_left]
    exact List.prefix_append p Y
  · intro j hj hpj
    rw [List.drop_append_of_le_length (Nat.le_of_lt hj)] at hpj
    by_cases hcase : p.length ≤ (X.drop j).length
    · exact hX (ifx_iff_exists_drop.mpr ⟨j, pfx_of_append_left hpj hcase⟩)
    · push_neg at hcase
      obtain ⟨htake, hdrop2⟩ := pfx_append_split hpj (Nat.le_of_lt hcase)
      have hXl : (X.drop j).length = X.length - j := List.length_drop j X
      rw [hXl] at hcase hdrop2
      have h0 : 0 < X.length - j := by omega
      have hpp : p.drop (X.length - j) <+: p :=
        pfx_of_append_left hdrop2 (by rw [List.length_drop]; omega)
      have heq : p.drop (X.length - j) = p.take (p.length - (X.length - j)) := by
        have h3 := List.prefix_iff_eq_take.mp hpp
        rwa [List.length_drop] at h3
      exact hov (X.length - j) (by omega) h0 heq

theorem ms_selfov : selfOverlapFree MARKER_START := by unfold selfOverlapFree; decide

theorem me_selfov : selfOverlapFree MARKER_END := by unfold selfOverlapFree; decide

theorem me_len_le : MARKER_END.length ≤ MARKER_START.length := by decide

theorem me_not_ifx_ms : ¬ MARKER_END <:+: MARKER_START := by decide

theorem me_take_not_sfx :
    ∀ k, k < MARKER_END.length → 0 < k → ¬ MARKER_END.take k <:+ MARKER_START := by decide

theorem me_drop_not_pfx :
    ∀ k, k < MARKER_END.length → 0 < k → ¬ MARKER_END.drop k <+: MARKER_START := by decide

theorem me_not_ifx_left (A w : Str)
    (hA : ¬ MARKER_END <:+: A) (hw : ¬ MARKER_END <:+: w) :
    ¬ MARKER_END <:+: A ++ (MARKER_START ++ w) := by
  intro h
  rcases ifx_append_cases h with h1 | h2 | ⟨k, hk0, hkl, hks, hkp⟩
  · exact hA h1
  · rcases ifx_append_cases h2 with g1 | g2 | ⟨k, hk0, hkl, hks, hkp⟩
    · exact me_not_ifx_ms g1
    · exact hw g2
    · exact me_take_not_sfx k hkl hk0 hks
  · have hle : (MARKER_END.drop k).length ≤ MARKER_START.length := by
      rw [List.length_drop]
      have := me_len_le
      omega
    exact me_drop_not_pfx k hkl hk0 (pfx_of_append_left hkp hle)

theorem ms_not_containsS {A : Str} (h : ¬ MARKER_START <:+: A) :
    containsS MARKER_START A = false := by
  cases hc : containsS MARKER_START A with
  | false => rfl
  | true => exact absurd (containsS_iff.mp hc) h

theorem inject_html_marked (A w B F : Str)
    (hAs : ¬ MARKER_START <:+: A) (hAe : ¬ MARKER_END <:+: A)
    (hwe : ¬ MARKER_END <:+: w) :
    inject_html (A ++ MARKER_START ++ w ++ MARKER_END ++ B) F = .ok (A ++ F ++ B) := by
  have hassoc : A ++ MARKER_START ++ w ++ MARKER_END ++ B =
      A ++ (MARKER_START ++ (w ++ (MARKER_END ++ B))) := by
    simp [List.append_assoc]
  have h1 : firstIdx MARKER_START (A ++ (MARKER_START ++ (w ++ (MARKER_END ++ B)))) =
      some A.length :=
    firstIdx_append_self MARKER_START A (w ++ (MARKER_END ++ B)) ms_selfov hAs
  have h2 : firstIdx MARKER_END (A ++ (MARKER_START ++ (w ++ (MARKER_END ++ B)))) =
      some (A ++ (MARKER_START ++ w)).length := by
    have := firstIdx_append_self MARKER_END (A ++ (MARKER_START ++ w)) B me_selfov
      (me_not_ifx_left A w hAe hwe)
    rw [← this]
    congr 1
    simp [List.append_assoc]
  rw [hassoc]
  rw [inject_html]
  rw [show containsS MARKER_START (A ++ (MARKER_START ++ (w ++ (MARKER_END ++ B)))) = true by
        rw [containsS, h1]; rfl,
      show containsS MARKER_END (A ++ (MARKER_START ++ (w ++ (MARKER_END ++ B)))) = true by
        rw [containsS, h2]; rfl]
  simp only [Bool.and_self, if_true, h1, h2, Option.getD_some]
  congr 1
  rw [List.take_left]
  congr 1
  rw [show A ++ (MARKER_START ++ (w ++ (MARKER_END ++ B))) =
        (A ++ (MARKER_START ++ w) ++ MARKER_END) ++ B by simp [List.append_assoc]]
  rw [List.drop_left' (by simp [List.length_append]; omega)]

/-- Unfolding of `"\n".join` on a list with at least two elements. -/
theorem joinNL_cons_of_ne (x : Str) (l : List Str) (h : l ≠ []) :
    joinNL (x :: l) = x ++ Char.ofNat 10 :: joinNL l := by
  cases l with
  | nil => exact absurd rfl h
  | cons y ys => rfl

theorem joinNL_pfx (x : Str) (l : List Str) : x <+: joinNL (x :: l) := by
  cases l with
  | nil => exact List.prefix_refl x
  | cons y ys => exact ⟨Char.ofNat 10 :: joinNL (y :: ys), rfl⟩

theorem joinNL_sfx (y : Str) : ∀ xs : List Str,
    (y ++ [Char.ofNat 10]) <:+ joinNL (xs ++ [y, []]) := by
  intro xs
  induction xs with
  | nil => exact List.suffix_refl _
  | cons x xs ih =>
    rw [List.cons_append, joinNL_cons_of_ne x (xs ++ [y, []]) (by simp)]
    refine ih.trans ?_
    refine (List.suffix_cons (Char.ofNat 10) (joinNL (xs ++ [y, []]))).trans ?_
    exact List.suffix_append x _

/-- Every record retained by `parse_rows` has a year at or above the cutoff:
the `break` fires before any below-cutoff record is appended. -/
theorem parse_rows_year_ge : ∀ rows : List RowTag, ∀ p ∈ parse_rows rows,
    START_YEAR ≤ p.year := by
  intro rows
  induction rows with
  | nil => simp [parse_rows]
  | cons r rest ih =>
    intro p hp
    cases hys : r.year_span with
    | none =>
      simp only [parse_rows, hys] at hp
      exact ih p hp
    | some ys =>
      simp only [parse_rows, hys] at hp
      by_cases hd : isDigits (pyStrip ys)
      · rw [if_pos hd] at hp
        by_cases hlt : digitsToNat (pyStrip ys) < START_YEAR
        · rw [if_pos hlt] at hp
          simp at hp
        · rw [if_neg hlt] at hp
          cases hlk : r.link_tag with
          | none =>
            simp only [hlk] at hp
            exact ih p hp
          | some pr =>
            obtain ⟨txt, href⟩ := pr
            simp only [hlk] at hp
            rcases List.mem_cons.mp hp with rfl | hmem
            · exact Nat.le_of_not_lt hlt
            · exact ih p hmem
      · rw [if_neg hd] at hp
        exact ih p hp

/-- Parsing discards the first below-cutoff-year row and everything
after it. -/
theorem parse_rows_stop (rows₁ : List RowTag) (r : RowTag) (rows₂ : List RowTag)
    (h1 : ∀ x ∈ rows₁, belowCut x = false) (hr : belowCut r = true) :
    parse_rows (rows₁ ++ r :: rows₂) = parse_rows rows₁ := by
  induction rows₁ with
  | nil =>
    cases hys : r.year_span with
    | none =>
      simp only [belowCut, hys] at hr
      exact Bool.noConfusion hr
    | some ys =>
      simp only [belowCut, hys, Bool.and_eq_true] at hr
      obtain ⟨hd, hlt2⟩ := hr
      simp only [List.nil_append, parse_rows, hys]
      rw [if_pos hd, if_pos (of_decide_eq_true hlt2)]
  | cons x xs ih =>
    have hx : belowCut x = false := h1 x (by simp)
    have hrest : ∀ z ∈ xs, belowCut z = false := fun z hz => h1 z (by simp [hz])
    cases hys : x.year_span with
    | none =>
      simp only [List.cons_append, parse_rows, hys]
      exact ih hrest
    | some ys =>
      simp only [List.cons_append, parse_rows, hys]
      by_cases hd : isDigits (pyStrip ys)
      · have hnlt : ¬ digitsToNat (pyStrip ys) < START_YEAR := by
          have h2 := hx
          simp only [belowCut, hys, hd, Bool.true_and] at h2
          exact of_decide_eq_false h2
        simp only [if_pos hd, if_neg hnlt]
        cases x.link_tag with
        | none => exact ih hrest
        | some pr =>
          obtain ⟨txt, href⟩ := pr
          exact congrArg (List.cons _) (ih hrest)
      · simp only [if_neg hd]
        exact ih hrest

/-- Every record produced by `parse_rows` takes its title from a present
title-link element of some row; the stripped text may be empty. -/
theorem parse_rows_title_src : ∀ rows : List RowTag, ∀ p ∈ parse_rows rows,
    ∃ r ∈ rows, ∃ txt href, r.link_tag = some (txt, href) ∧ p.title = pyStrip txt := by
  intro rows
  induction rows with
  | nil => simp [parse_rows]
  | cons r rest ih =>
    intro p hp
    cases hys : r.year_span with
    | none =>
      simp only [parse_rows, hys] at hp
      obtain ⟨r2, hr2, hw⟩ := ih p hp
      exact ⟨r2, by simp [hr2], hw⟩
    | some ys =>
      simp only [parse_rows, hys] at hp
      by_cases hd : isDigits (pyStrip ys)
      · rw [if_pos hd] at hp
        by_cases hlt : digitsToNat (pyStrip ys) < START_YEAR
        · rw [if_pos hlt] at hp
          simp at hp
        · rw [if_neg hlt] at hp
          cases hlk : r.link_tag with
          | none =>
            simp only [hlk] at hp
            obtain ⟨r2, hr2, hw⟩ := ih p hp
            exact ⟨r2, by simp [hr2], hw⟩
          | some pr =>
            obtain ⟨txt, href⟩ := pr
            simp only [hlk] at hp
            rcases List.mem_cons.mp hp with rfl | hmem
            · exact ⟨r, by simp, txt, href, hlk, rfl⟩
            · obtain ⟨r2, hr2, hw⟩ := ih p hmem
              exact ⟨r2, by simp [hr2], hw⟩
      · rw [if_neg hd] at hp
        obtain ⟨r2, hr2, hw⟩ := ih p hp
        exact ⟨r2, by simp [hr2], hw⟩

/-- Crawl-loop invariant: all accumulated records are at or above the cutoff. -/
theorem fetch_go_ge (pages : Nat → List RowTag) : ∀ (fuel cstart : Nat)
    (acc : List Publication) (fetched : Nat) (out : List Publication × Nat),
    fetch_pubs_go pages fuel cstart acc fetched = some out →
    (∀ p ∈ acc, START_YEAR ≤ p.year) →
    ∀ p ∈ out.fst, START_YEAR ≤ p.year := by
  intro fuel
  induction fuel with
  | zero =>
    intro cstart acc fetched out h
    simp [fetch_pubs_go] at h
  | succ fuel ih =>
    intro cstart acc fetched out h hacc
    rw [fetch_pubs_go] at h
    cases hpr : parse_rows (pages cstart) with
    | nil =>
      simp only [hpr, Option.some.injEq] at h
      subst h
      exact hacc
    | cons p ps =>
      simp only [hpr] at h
      have hacc2 : ∀ q ∈ acc ++ (p :: ps), START_YEAR ≤ q.year := by
        intro q hq
        rcases List.mem_append.mp hq with h1 | h2
        · exact hacc q h1
        · exact parse_rows_year_ge (pages cstart) q (hpr ▸ h2)
      by_cases hlast : ((p :: ps).getLast (List.cons_ne_nil p ps)).year < START_YEAR
      · rw [if_pos hlast] at h
        simp only [Option.some.injEq] at h
        subst h
        exact hacc2
      · rw [if_neg hlast] at h
        exact ih _ _ _ _ h hacc2

/-- Shifting the running index of `chunkIdx` by one step is the same as
dropping one slice's worth of elements. -/
theorem chunkIdx_shift (items : List Publication) (size : Nat) :
    ∀ k i, chunkIdx items size k (size + i) = chunkIdx (items.drop size) size k i := by
  intro k
  induction k with
  | zero => intro i; rfl
  | succ k ih =>
    intro i
    simp only [chunkIdx]
    rw [List.drop_drop]
    refine congrArg₂ _ rfl ?_
    rw [show size + i + size = size + (i + size) by omega]
    exact ih (i + size)

/-- One-step unfolding of `chunk` at size 3 on a nonempty list. -/
theorem chunk_cons3 (items : List Publication) (h : items ≠ []) :
    chunk items 3 = items.take 3 :: chunk (items.drop 3) 3 := by
  have hn : items.length ≠ 0 := by simpa using h
  unfold chunk
  rw [show (items.length + 3 - 1) / 3 = ((items.drop 3).length + 3 - 1) / 3 + 1 by
    rw [List.length_drop]; omega]
  simp only [chunkIdx, List.drop_zero]
  refine congrArg₂ _ rfl ?_
  have h2 := chunkIdx_shift items 3 (((items.drop 3).length + 3 - 1) / 3) 0
  simpa using h2

/-- Chunking at size 3 is a lossless partition: concatenating the chunks gives
back the original list, chunks are nonempty of size at most 3, and every chunk
except possibly the last has size exactly 3. -/
theorem chunk3_props_aux : ∀ (n : Nat) (items : List Publication), items.length ≤ n →
    (chunk items 3).flatten = items ∧
    (∀ c ∈ chunk items 3, c ≠ [] ∧ c.length ≤ 3) ∧
    (∀ c ∈ (chunk items 3).dropLast, c.length = 3) := by
  intro n
  induction n with
  | zero =>
    intro items hlen
    obtain rfl : items = [] := List.length_eq_zero.mp (by omega)
    refine ⟨rfl, ?_, ?_⟩ <;> simp [chunk, chunkIdx]
  | succ n ih =>
    intro items hlen
    by_cases hnil : items = []
    · subst hnil
      refine ⟨rfl, ?_, ?_⟩ <;> simp [chunk, chunkIdx]
    · have h1 : 1 ≤ items.length := by
        cases items with
        | nil => exact absurd rfl hnil
        | cons a l => simp
      rw [chunk_cons3 items hnil]
      have hdrop : (items.drop 3).length ≤ n := by
        rw [List.length_drop]; omega
      obtain ⟨hj, hc, hd⟩ := ih (items.drop 3) hdrop
      refine ⟨?_, ?_, ?_⟩
      · rw [List.flatten_cons, hj, List.take_append_drop]
      · intro c hc2
        rcases List.mem_cons.mp hc2 with rfl | hm
        · refine ⟨?_, ?_⟩
          · rw [Ne, List.take_eq_nil_iff]
            push_neg
            exact ⟨by omega, hnil⟩
          · rw [List.length_take]
            omega
        · exact hc c hm
      · cases hch : chunk (items.drop 3) 3 with
        | nil => simp [hch]
        | cons c0 cs =>
          rw [List.dropLast_cons₂]
          intro c hc2
          rcases List.mem_cons.mp hc2 with rfl | hm
          · have hne : items.drop 3 ≠ [] := by
              intro he
              rw [he] at hch
              simp [chunk, chunkIdx] at hch
            have h3 : 3 < items.length := by
              have h0 : (items.drop 3).length ≠ 0 := fun he => hne (List.length_eq_zero.mp he)
              rw [List.length_drop] at h0
              omega
            rw [List.length_take]
            omega
          · exact hd c (by rw [hch]; exact hm)

/-! Claim theorems. -/

/-- C5: splicing any fragment `F` into `A ++ MARKER_START ++ old ++ MARKER_END ++ B`,
where `A`, `old` and `B` contain no marker literal, replaces everything from the
first occurrence of the start marker through the first occurrence of the end
marker, inclusive, and nothing else: the result is exactly `A ++ F ++ B`. -/
theorem c5_splice_correct (A old B F : Str)
    (hA : ¬ MARKER_START <:+: A ∧ ¬ MARKER_END <:+: A)
    (hold : ¬ MARKER_START <:+: old ∧ ¬ MARKER_END <:+: old)
    (hB : ¬ MARKER_START <:+: B ∧ ¬ MARKER_END <:+: B) :
    inject_html (A ++ MARKER_START ++ old ++ MARKER_END ++ B) F = .ok (A ++ F ++ B) :=
  inject_html_marked A old B F hA.1 hA.2 hold.2

/-- C5 witness: the splice theorem applied to a concrete document. -/
theorem c5_witness :
    ((¬ MARKER_START <:+: ("X").data ∧ ¬ MARKER_END <:+: ("X").data) ∧
     (¬ MARKER_START <:+: ("old").data ∧ ¬ MARKER_END <:+: ("old").data) ∧
     (¬ MARKER_START <:+: ("Y").data ∧ ¬ MARKER_END <:+: ("Y").data)) ∧
    inject_html (("X").data ++ MARKER_START ++ ("old").data ++ MARKER_END ++ ("Y").data)
        (("FRAG").data) = .ok (("X").data ++ ("FRAG").data ++ ("Y").data) :=
  ⟨⟨⟨by decide, by decide⟩, ⟨by decide, by decide⟩, ⟨by decide, by decide⟩⟩,
   c5_splice_correct (("X").data) (("old").data) (("Y").data) (("FRAG").data)
     ⟨by decide, by decide⟩ ⟨by decide, by decide⟩ ⟨by decide, by decide⟩⟩

/-- C1 counterexample: splicing `docC1` twice with the rendered fragment
`build_html []` is not idempotent: the second splice leaves the fragment's
trailing newline in place and inserts the fragment (which again ends in a
newline), so the document grows by one newline. -/
theorem c1_counterexample :
    inject_html docC1 (build_html []) = .ok docC1a ∧
    inject_html docC1a (build_html []) = .ok docC1b ∧
    docC1a ≠ docC1b :=
  ⟨rfl, rfl, by decide⟩

/-- C1 amended: splicing is idempotent only up to a trailing newline: for a
marker-delimited document with marker-free `A`, `old`, `B` and a rendered
fragment of the shape `MARKER_START ++ mid ++ MARKER_END ++ "\n"` (the shape
`build_html` produces) with marker-free `mid`, the first splice yields
`A ++ F ++ B` and the second yields `A ++ F ++ "\n" ++ B`: one newline is added,
so the results differ in exactly that newline. -/
theorem c1_amended (A old B mid : Str)
    (hA : ¬ MARKER_START <:+: A ∧ ¬ MARKER_END <:+: A)
    (hold : ¬ MARKER_START <:+: old ∧ ¬ MARKER_END <:+: old)
    (hB : ¬ MARKER_START <:+: B ∧ ¬ MARKER_END <:+: B)
    (hmid : ¬ MARKER_START <:+: mid ∧ ¬ MARKER_END <:+: mid) :
    inject_html (A ++ MARKER_START ++ old ++ MARKER_END ++ B)
        (MARKER_START ++ mid ++ MARKER_END ++ [Char.ofNat 10])
      = .ok (A ++ (MARKER_START ++ mid ++ MARKER_END ++ [Char.ofNat 10]) ++ B) ∧
    inject_html (A ++ (MARKER_START ++ mid ++ MARKER_END ++ [Char.ofNat 10]) ++ B)
        (MARKER_START ++ mid ++ MARKER_END ++ [Char.ofNat 10])
      = .ok (A ++ (MARKER_START ++ mid ++ MARKER_END ++ [Char.ofNat 10])
              ++ (Char.ofNat 10 :: B)) := by
  constructor
  · exact inject_html_marked A old B _ hA.1 hA.2 hold.2
  · have e1 : A ++ (MARKER_START ++ mid ++ MARKER_END ++ [Char.ofNat 10]) ++ B
        = A ++ MARKER_START ++ mid ++ MARKER_END ++ (Char.ofNat 10 :: B) := by
      simp [List.append_assoc]
    rw [e1]
    have h := inject_html_marked A mid (Char.ofNat 10 :: B)
      (MARKER_START ++ mid ++ MARKER_END ++ [Char.ofNat 10]) hA.1 hA.2 hmid.2
    exact h

/-- C1 witness: the amended double-splice theorem at a concrete document, with
the concrete fragment being exactly `build_html []`. -/
theorem c1_witness :
    build_html [] = MARKER_START ++ [Char.ofNat 10] ++ MARKER_END ++ [Char.ofNat 10] ∧
    ((¬ MARKER_START <:+: ("X").data ∧ ¬ MARKER_END <:+: ("X").data) ∧
     (¬ MARKER_START <:+: ("o").data ∧ ¬ MARKER_END <:+: ("o").data) ∧
     (¬ MARKER_START <:+: ("Y").data ∧ ¬ MARKER_END <:+: ("Y").data) ∧
     (¬ MARKER_START <:+: [Char.ofNat 10] ∧ ¬ MARKER_END <:+: [Char.ofNat 10])) ∧
    (inject_html (("X").data ++ MARKER_START ++ ("o").data ++ MARKER_END ++ ("Y").data)
        (MARKER_START ++ [Char.ofNat 10] ++ MARKER_END ++ [Char.ofNat 10])
      = .ok (("X").data ++ (MARKER_START ++ [Char.ofNat 10] ++ MARKER_END ++ [Char.ofNat 10])
              ++ ("Y").data) ∧
     inject_html (("X").data ++ (MARKER_START ++ [Char.ofNat 10] ++ MARKER_END
          ++ [Char.ofNat 10]) ++ ("Y").data)
        (MARKER_START ++ [Char.ofNat 10] ++ MARKER_END ++ [Char.ofNat 10])
      = .ok (("X").data ++ (MARKER_START ++ [Char.ofNat 10] ++ MARKER_END ++ [Char.ofNat 10])
              ++ (Char.ofNat 10 :: ("Y").data))) :=
  ⟨by decide,
   ⟨⟨by decide, by decide⟩, ⟨by decide, by decide⟩, ⟨by decide, by decide⟩,
    ⟨by decide, by decide⟩⟩,
   c1_amended (("X").data) (("o").data) (("Y").data) [Char.ofNat 10]
     ⟨by decide, by decide⟩ ⟨by decide, by decide⟩ ⟨by decide, by decide⟩
     ⟨by decide, by decide⟩⟩

/-- C6 counterexample: the fragment for an empty record list begins with the
start marker but does not end with the end marker: a newline follows it. -/
theorem c6_counterexample :
    ¬ (MARKER_START <+: build_html [] ∧ MARKER_END <:+ build_html []) := by decide

/-- C6 amended: for every record list the fragment begins with the start marker
literal and ends with the end marker literal followed by exactly one newline
(so the end marker itself is not a suffix of the fragment). -/
theorem c6_markers (pubs : List Publication) :
    MARKER_START <+: build_html pubs ∧
    (MARKER_END ++ [Char.ofNat 10]) <:+ build_html pubs := by
  simp only [build_html]
  refine ⟨joinNL_pfx _ _, ?_⟩
  have h := joinNL_sfx MARKER_END (MARKER_START ::
    ((sortDesc ((groupByYear pubs).map Prod.fst)).flatMap
      (fun y => renderYear y (lookupYear (groupByYear pubs) y))))
  simpa [List.cons_append] using h

/-- C2 counterexample: `row2017` qualifies structurally (numeric year text and a
present title link), yet `parse_rows` returns nothing for it and also discards
the qualifying 2019 row that follows it: the parser itself applies the cutoff,
it is not applied only by the caller. -/
theorem c2_counterexample :
    row2017.year_span = some (("2017").data) ∧
    isDigits (pyStrip (("2017").data)) = true ∧
    row2017.link_tag.isSome = true ∧
    parse_rows [row2017] = [] ∧
    parse_rows [row2017, row2019] = [] := by decide

/-- C2 amended: the parser applies the cutoff itself: on reaching the first row
whose numeric year is below `START_YEAR` it stops, returning only the records
of the rows before it and discarding that row and everything after it; every
record it returns has year at least `START_YEAR`. -/
theorem c2_amended (rows₁ : List RowTag) (r : RowTag) (rows₂ : List RowTag)
    (h1 : ∀ x ∈ rows₁, belowCut x = false) (hr : belowCut r = true) :
    parse_rows (rows₁ ++ r :: rows₂) = parse_rows rows₁ ∧
    ∀ p ∈ parse_rows (rows₁ ++ r :: rows₂), START_YEAR ≤ p.year :=
  ⟨parse_rows_stop rows₁ r rows₂ h1 hr,
   fun p hp => parse_rows_year_ge _ p hp⟩

/-- C2 witness: the amended parser theorem at a concrete page. -/
theorem c2_witness :
    (∀ x ∈ [row2019], belowCut x = false) ∧ belowCut row2017 = true ∧
    (parse_rows ([row2019] ++ row2017 :: [row2022]) = parse_rows [row2019] ∧
     ∀ p ∈ parse_rows ([row2019] ++ row2017 :: [row2022]), START_YEAR ≤ p.year) :=
  ⟨by decide, by decide,
   c2_amended [row2019] row2017 [row2022] (by decide) (by decide)⟩

/-- C3 counterexample: on a listing whose pages have last-row years 2022, 2019
and 2017 (the third page holding a 2018 row before its 2017 row), the crawl
fetches 4 pages, not exactly 3: the parser truncates the third page to its
2018 prefix, so the loop's own below-cutoff stop never fires and only the
empty fourth page stops the crawl. -/
theorem c3_counterexample :
    (fetch_publications pagesC3 10).map Prod.snd = some 4 ∧ (4 : Nat) ≠ 3 := by
  refine ⟨by decide, by decide⟩

/-- C3 amended: the crawl stops at the first page whose parsed record list is
empty; on the listing with last-row years 2022, 2019, 2017 it fetches 4 pages
(the straddling third page parses to its 2018-and-above prefix, so the loop
continues to the empty fourth page) and keeps exactly the records with year at
least 2018, in page order. -/
theorem c3_amended :
    fetch_publications pagesC3 10 = some ([pub2022, pub2019, pub2018], 4) := by decide

/-- C4: every record in the final output of the crawl has year at least
`START_YEAR` (2018), for every listing and fuel: the parser never lets a
below-cutoff record through, and the loop only accumulates parsed records. -/
theorem c4_cutoff_invariant (pages : Nat → List RowTag) (fuel : Nat)
    (pubs : List Publication) (n : Nat)
    (h : fetch_publications pages fuel = some (pubs, n)) :
    ∀ p ∈ pubs, START_YEAR ≤ p.year :=
  fun p hp => fetch_go_ge pages fuel 0 [] 0 (pubs, n) h (by simp) p hp

/-- C4 witness: the cutoff invariant at the concrete listing. -/
theorem c4_witness :
    fetch_publications pagesC3 10 = some ([pub2022, pub2019, pub2018], 4) ∧
    ∀ p ∈ [pub2022, pub2019, pub2018], START_YEAR ≤ p.year :=
  ⟨by decide, c4_cutoff_invariant pagesC3 10 [pub2022, pub2019, pub2018] 4 (by decide)⟩

/-- C7: on a document containing neither the marker pair nor the fallback
anchor, the splice fails with the run-terminating error naming the missing
anchor, whatever the fragment; consequently every `main` run on that document
performs no write and leaves the document unchanged (the single write happens
only after a successful splice). -/
theorem c7_hard_failure (doc : Str)
    (hpair : ¬ (containsS MARKER_START doc = true ∧ containsS MARKER_END doc = true))
    (hanchor : containsS ANCHOR doc = false) :
    (∀ F, inject_html doc F =
        .error (("Could not find insertion anchor in papers/index.html").data)) ∧
    (∀ pages fuel out, main pages fuel doc = some out →
        out.finalDoc = doc ∧ FileOp.write ∉ out.ops) := by
  have hcond : (containsS MARKER_START doc && containsS MARKER_END doc) = false := by
    cases h1 : containsS MARKER_START doc <;> cases h2 : containsS MARKER_END doc <;>
      simp_all
  have herr : ∀ F, inject_html doc F =
      .error (("Could not find insertion anchor in papers/index.html").data) := by
    intro F
    simp [inject_html, hcond, hanchor]
  refine ⟨herr, ?_⟩
  intro pages fuel out hmain
  cases hf : fetch_publications pages fuel with
  | none =>
    rw [main] at hmain
    simp only [hf] at hmain
    exact Option.noConfusion hmain
  | some pr =>
    obtain ⟨pubs, n⟩ := pr
    rw [main] at hmain
    simp only [hf] at hmain
    by_cases hemp : pubs.isEmpty = true
    · rw [if_pos hemp] at hmain
      have h2 : (⟨.ret 1, doc, []⟩ : RunOutcome) = out := Option.some.inj hmain
      subst h2
      exact ⟨rfl, by simp⟩
    · rw [if_neg hemp, herr (build_html pubs)] at hmain
      have h2 : (⟨.sysExit (("Could not find insertion anchor in papers/index.html").data),
          doc, [.read]⟩ : RunOutcome) = out := Option.some.inj hmain
      subst h2
      refine ⟨rfl, ?_⟩
      intro hmem
      rcases List.mem_singleton.mp hmem with h3
      exact FileOp.noConfusion h3

/-- C7 witness: the hard-failure theorem at a concrete marker-free and
anchor-free document. -/
theorem c7_witness :
    (¬ (containsS MARKER_START (("hello").data) = true ∧
        containsS MARKER_END (("hello").data) = true)) ∧
    containsS ANCHOR (("hello").data) = false ∧
    ((∀ F, inject_html (("hello").data) F =
        .error (("Could not find insertion anchor in papers/index.html").data)) ∧
     (∀ pages fuel out, main pages fuel (("hello").data) = some out →
        out.finalDoc = ("hello").data ∧ FileOp.write ∉ out.ops)) :=
  ⟨by decide, by decide, c7_hard_failure (("hello").data) (by decide) (by decide)⟩

/-- C8: when the crawl yields zero records, `main` returns exit code 1 with the
document untouched and no file operation at all (no read, no write); that
outcome is a non-zero return, distinct from the success return 0 and distinct
in kind from the hard-failure outcome, which is a raised `SystemExit`. -/
theorem c8_zero_records (pages : Nat → List RowTag) (fuel n : Nat) (doc : Str)
    (h : fetch_publications pages fuel = some ([], n)) :
    main pages fuel doc = some ⟨.ret 1, doc, []⟩ ∧
    MainResult.ret 1 ≠ MainResult.ret 0 ∧
    (∀ msg, MainResult.ret 1 ≠ MainResult.sysExit msg) := by
  refine ⟨?_, by decide, fun msg hcon => MainResult.noConfusion hcon⟩
  rw [main]
  simp only [h, List.isEmpty_nil, if_true]

/-- C8 witness: the zero-records theorem on the empty listing. -/
theorem c8_witness :
    fetch_publications pagesNone 1 = some ([], 1) ∧
    (main pagesNone 1 (("doc").data) = some ⟨.ret 1, ("doc").data, []⟩ ∧
     MainResult.ret 1 ≠ MainResult.ret 0 ∧
     (∀ msg, MainResult.ret 1 ≠ MainResult.sysExit msg)) :=
  ⟨by decide, c8_zero_records pagesNone 1 1 (("doc").data) (by decide)⟩

/-- C9 counterexample: a row whose title link is present but has
whitespace-only text is parsed into a record whose title is empty: the parser
only drops rows lacking the title-link element, it does not enforce a
non-empty title. -/
theorem c9_counterexample :
    rowBlank.link_tag.isSome = true ∧
    parse_rows [rowBlank] =
      [{ year := 2020, title := [], link := SCHOLAR_HOST ++ ("/p").data, venue := [] }] ∧
    (parse_rows [rowBlank]).any (fun q => q.title.isEmpty) = true := by decide

/-- C9 amended: rows lacking a title-link element are dropped during parsing;
every retained record's title is the stripped text of some row's present
title-link element, which may be empty. -/
theorem c9_amended (rows : List RowTag) (p : Publication) (hp : p ∈ parse_rows rows) :
    ∃ r ∈ rows, ∃ txt href, r.link_tag = some (txt, href) ∧ p.title = pyStrip txt :=
  parse_rows_title_src rows p hp

/-- C9 witness: the amended title-provenance theorem at the concrete row. -/
theorem c9_witness :
    ({ year := 2020, title := [], link := SCHOLAR_HOST ++ ("/p").data, venue := [] } ∈
      parse_rows [rowBlank]) ∧
    (∃ r ∈ [rowBlank], ∃ txt href, r.link_tag = some (txt, href) ∧
      ({ year := 2020, title := [], link := SCHOLAR_HOST ++ ("/p").data,
         venue := [] } : Publication).title = pyStrip txt) :=
  ⟨by decide, c9_amended [rowBlank] _ (by decide)⟩

/-- C10: chunking at size 3 is a lossless partition: concatenating the chunks
in order yields exactly the original list, no chunk is empty, every chunk has
at most 3 records, and every chunk except possibly the last has exactly 3, so
the renderer never drops, duplicates or reorders the records of a year group. -/
theorem c10_chunk_partition (items : List Publication) :
    (chunk items 3).flatten = items ∧
    (∀ c ∈ chunk items 3, c ≠ [] ∧ c.length ≤ 3) ∧
    (∀ c ∈ (chunk items 3).dropLast, c.length = 3) :=
  chunk3_props_aux items.length items (Nat.le_refl _)

end UpdatePub
